import Mathlib

/- Verification of the AutoDestroy insertion pass
   (src/compiler/passes/insertAutoCopyAutoDestroy.cpp).

   Tracked symbols are identified with their dense indices 0 .. n-1:
   extractSymbols (lines 197-253) assigns each admitted symbol the index
   symbols.size() at insertion time and asserts symbols[symbolIndex[s]] == s,
   so over the dense range the index map is the identity and bit i of every
   flow vector refers to symbol i.  A symbol s is tracked iff s < n.

   The alias map (AliasVectorMap, lines 142, 165-186, 311-324) maps symbols
   to heap-allocated SymbolVector objects, and distinct map entries may share
   one vector object.  We therefore model the heap explicitly: a store from
   list ids to list contents, an aliveness flag per id (delete marks an id
   dead), and a map from each symbol to the id of its vector.  Initially
   (extractSymbols, lines 247-251) symbol s owns the singleton list [s] under
   id s. -/

/-- Pointwise update of a function, used for the list store and alias map. -/
def upd {α : Type} (f : Nat → α) (k : Nat) (v : α) : Nat → α :=
  fun n => if n = k then v else f n

/-- Model of BitVec::get (bitVec.h).  Out-of-range reads yield false. -/
def bvGet (v : List Bool) (i : Nat) : Bool := v.getD i false

/-- Model of BitVec::set. -/
def bvSet (v : List Bool) (i : Nat) : List Bool := v.set i true

/-- Model of BitVec operator+ (set union), used at line 539. -/
def bvUnion (a b : List Bool) : List Bool := List.zipWith (fun x y => x || y) a b

/-- Model of BitVec operator- (set difference), used at line 539. -/
def bvMinus (a b : List Bool) : List Bool := List.zipWith (fun x y => x && !y) a b

/-- Number of set bits of a flow vector. -/
def popcount (v : List Bool) : Nat := v.count true

/- The IR shapes the transition scan distinguishes (computeTransitions,
   lines 423-467, dispatching to processConstructor, processMove and
   processDestructor).  A statement is one of:
   - move l rhs       : a PRIM_MOVE or PRIM_ASSIGN whose first operand is the
                        SymExpr for symbol l; the right operand is either a
                        call returning a non-class value (callCtor, the
                        isConstructor shape of lines 256-278), a call
                        returning a class value (callClass), a bare SymExpr
                        (sym r), or anything else;
   - dtorCall f rest  : a call resolved to a FLAG_DESTRUCTOR function; f is
                        the symbol of the first actual argument, rest lists
                        the symbols of SymExprs in later argument positions;
   - ret a            : a PRIM_RETURN primitive, taking the SymExpr for a
                        symbol or not;
   - goto             : a GotoStmt (the branch statements of the spec);
   - autoDestroy s    : a call inserted by the pass itself (line 519);
   - other            : any other expression. -/

/-- Right operand shapes of a move/assign primitive. -/
inductive RHS where
  | callCtor : RHS
  | callClass : RHS
  | sym : Nat → RHS
  | otherRhs : RHS
deriving DecidableEq

/-- Statement shapes distinguished by the pass. -/
inductive Stmt where
  | move : Nat → RHS → Stmt
  | dtorCall : Nat → List Nat → Stmt
  | ret : Option Nat → Stmt
  | goto : Stmt
  | autoDestroy : Nat → Stmt
  | otherStmt : Stmt
deriving DecidableEq

/-- Per-block analysis state of the transition scan: the GEN and KILL
bit-vectors of the current block, the alias map (store of list objects,
aliveness of each list id, and the id each symbol maps to), and the
warnings emitted so far (each recorded by the symbol it is anchored at). -/
structure ScanState where
  gen : List Bool
  kill : List Bool
  amap : Nat → Nat
  store : Nat → List Nat
  alive : Nat → Bool
  warnings : List Nat

/-- State after extractSymbols (lines 197-253) for n tracked symbols:
GEN and KILL all clear, and each symbol in its own singleton alias list. -/
def initState (n : Nat) : ScanState where
  gen := List.replicate n false
  kill := List.replicate n false
  amap := fun s => s
  store := fun s => [s]
  alive := fun _ => true
  warnings := []

/-- The state the transition scan reaches after one statement move y, x in
the two-symbol initial state (y is symbol 1, x is symbol 0, x never
constructed): GEN still all clear, x and y share the clique list [0, 1]
under id 0, and y's old singleton list is freed. -/
def afterFirstMove : ScanState :=
  { initState 2 with
      store := upd (initState 2).store 0 [0, 1]
      alive := upd (initState 2).alive 1 false
      amap := upd (initState 2).amap 1 0 }

/- mergeAliases (lines 311-324):

     SymbolVector* origList = aliases[orig];
     SymbolVector* aliasList = aliases[alias];
     for (size_t i = 0; i < aliasList->size(); ++i)
       origList->push_back(aliasList->at(i));
     delete aliasList;
     aliases[alias] = origList;

   The loop re-reads aliasList->size() each iteration, and origList and
   aliasList may be the same object, so we model the loop against the store
   with explicit fuel; the loop body appends aliasList->at(i) to the list
   under the orig id. -/

/-- Fueled model of the copy loop of mergeAliases.  Returns none when the
fuel runs out before the loop condition becomes false. -/
def mergeLoop (oid aid : Nat) : Nat → Nat → (Nat → List Nat) → Option (Nat → List Nat)
  | 0, i, store => if i < (store aid).length then none else some store
  | fuel + 1, i, store =>
    if i < (store aid).length then
      mergeLoop oid aid fuel (i + 1) (upd store oid (store oid ++ [(store aid).getD i 0]))
    else some store

/-- Model of mergeAliases (lines 311-324): run the copy loop, free the
alias list object, and repoint the alias key at the orig list. -/
def mergeAliasesF (orig alias2 : Nat) (fuel : Nat) (st : ScanState) : Option ScanState :=
  let oid := st.amap orig
  let aid := st.amap alias2
  match mergeLoop oid aid fuel 0 st.store with
  | none => none
  | some store1 =>
    some { st with
            store := store1
            alive := upd st.alive aid false
            amap := upd st.amap alias2 oid }

/-- Model of the alias loop of processDestructor (lines 368-389): for each
member of the alias list, assert its KILL bit is clear, then set it.  A
failed INT_ASSERT is modelled as none. -/
def killList : List Nat → List Bool → Option (List Bool)
  | [], k => some k
  | s :: rest, k => if bvGet k s then none else killList rest (bvSet k s)

/-- processDestructor on the SymExpr of symbol r: kill every member of the
alias list reached through r (lines 375-384). -/
def killMembers (st : ScanState) (r : Nat) : Option ScanState :=
  match killList (st.store (st.amap r)) st.kill with
  | none => none
  | some k => some { st with kill := k }

/- processStmt models one iteration of the SymExpr loop of
   computeTransitions (lines 428-443) applied to every tracked SymExpr of
   one statement, dispatching through processConstructor (281-308),
   processMove (327-365) and processDestructor (394-420).  A symbol s is
   tracked iff s < st.gen.length (the symbolIndex lookup of line 433).

   For a move/assign:
   - an untracked left symbol is skipped, and a bare right SymExpr never
     fires a recognizer on its own (lhs == se fails at line 339);
   - processConstructor (callCtor right operand) asserts GEN[l] clear
     (line 300) and sets it;
   - processMove (bare SymExpr right operand) asserts GEN[l] clear
     (line 349 - after symbolIndex.at(rsym) at line 347, which aborts when
     the right symbol is untracked), then either propagates the right
     symbol's GEN bit or, when it is clear, emits a warning anchored at the
     right symbol if fWarnOwnership is on, and finally merges the right and
     left alias cliques (line 360, mergeAliases(rsym, lsym)).

   For a resolved FLAG_DESTRUCTOR call, the scan asserts that the tracked
   SymExpr is the first actual (line 406) and kills the clique of the first
   argument; a tracked SymExpr in any later argument position fails that
   assertion.  A PRIM_RETURN taking a tracked symbol kills its clique
   (lines 411-419). -/

/-- Effect of the transition scan on one statement. -/
def processStmt (warn : Bool) (fuel : Nat) (st : ScanState) : Stmt → Option ScanState
  | .move l rhs =>
    if l < st.gen.length then
      match rhs with
      | .callCtor =>
        if bvGet st.gen l then none
        else some { st with gen := bvSet st.gen l }
      | .callClass => some st
      | .otherRhs => some st
      | .sym r =>
        if bvGet st.gen l then none
        else if r < st.gen.length then
          let st1 :=
            if bvGet st.gen r then { st with gen := bvSet st.gen l }
            else if warn then { st with warnings := st.warnings ++ [r] } else st
          mergeAliasesF r l fuel st1
        else none
    else some st
  | .dtorCall first rest =>
    if first < st.gen.length then
      match killMembers st first with
      | none => none
      | some st1 =>
        if rest.any (fun b => decide (b < st.gen.length)) then none else some st1
    else
      if rest.any (fun b => decide (b < st.gen.length)) then none else some st
  | .ret a =>
    match a with
    | none => some st
    | some r => if r < st.gen.length then killMembers st r else some st
  | .goto => some st
  | .autoDestroy _ => some st
  | .otherStmt => some st

/-- The transition scan over one basic block's statement list
(computeTransitions, lines 453-467). -/
def scanBlock (warn : Bool) (fuel : Nat) : ScanState → List Stmt → Option ScanState
  | st, [] => some st
  | st, s :: rest =>
    match processStmt warn fuel st s with
    | none => none
    | some st1 => scanBlock warn fuel st1 rest

/-- Model of isJump (lines 484-496): a GotoStmt (the branch statements of
spec section 4.5) or a PRIM_RETURN call. -/
def isJump : Stmt → Bool
  | .goto => true
  | .ret _ => true
  | _ => false

/-- The forward flow equation OUT[b] = (IN[b] - KILL[b]) + GEN[b].
Modelled from the spec: BasicBlock::forwardFlowAnalysis (bb.cpp) is an
external collaborator; spec section 4.4 fixes its contract, matching the
comment at line 115 of the source. -/
def outBV (inb kill gen : List Bool) : List Bool := bvUnion (bvMinus inb kill) gen

/-- The to_kill vector of line 539: IN[i] + GEN[i] - KILL[i] - OUT[i]. -/
def needBV (inb gen kill out : List Bool) : List Bool :=
  bvMinus (bvMinus (bvUnion inb gen) kill) out

/- The insertion loop of insertAutoDestroy (lines 501-526) walks the bit
   positions j in ascending order; for each set bit it creates the call
   autoDestroy(symbols[j]) and either inserts it immediately before the
   last statement (insertBefore: the call lands at the end of the segment
   preceding the last statement) or immediately after it (insertAfter: the
   call lands at the front of the segment following the last statement). -/

/-- The insertion loop over the listed bit positions, carrying the two
segments accumulated before and after the block's last statement. -/
def spliceIdx (isjump : Bool) (tk : List Bool) (syms : List Nat) :
    List Nat → List Stmt × List Stmt → List Stmt × List Stmt
  | [], acc => acc
  | j :: js, acc =>
    if bvGet tk j then
      let c := Stmt.autoDestroy (syms.getD j 0)
      spliceIdx isjump tk syms js
        (if isjump then (acc.1 ++ [c], acc.2) else (acc.1, c :: acc.2))
    else spliceIdx isjump tk syms js acc

/-- The insertion loop of lines 513-525 over all bit positions. -/
def spliceCalls (isjump : Bool) (tk : List Bool) (syms : List Nat) :
    List Stmt × List Stmt :=
  spliceIdx isjump tk syms (List.range tk.length) ([], [])

/-- Model of insertAutoDestroy on one basic block (lines 501-526): skip
empty blocks, find the last statement, and splice one auto-destroy call
per set bit of to_kill around it. -/
def insertAutoDestroyBB (block : List Stmt) (tk : List Bool) (syms : List Nat) :
    List Stmt :=
  if block.length = 0 then block
  else
    let last := block.getLastD Stmt.otherStmt
    let p := spliceCalls (isJump last) tk syms
    block.dropLast ++ p.1 ++ [last] ++ p.2

/-- The auto-destroy calls generated for the given bit positions, in
iteration order. -/
def callsOf (tk : List Bool) (syms : List Nat) (js : List Nat) : List Stmt :=
  (js.filter (fun j => bvGet tk j)).map (fun j => Stmt.autoDestroy (syms.getD j 0))

/-- The set bit positions of to_kill in ascending order. -/
def filteredIdx (tk : List Bool) : List Nat :=
  (List.range tk.length).filter (fun j => bvGet tk j)

/-- The auto-destroy calls of one block in loop (ascending index) order. -/
def idxCalls (tk : List Bool) (syms : List Nat) : List Stmt :=
  callsOf tk syms (List.range tk.length)

/-- Model of the per-function insertion loop (insertAutoDestroy,
lines 528-543): for each block i, compute to_kill from the block's flow
sets and insert the calls into the block. -/
def passInsert (blocks : List (List Stmt)) (inS genS killS outS : List (List Bool))
    (syms : List Nat) : List (List Stmt) :=
  (List.range blocks.length).map fun i =>
    insertAutoDestroyBB (blocks.getD i [])
      (needBV (inS.getD i []) (genS.getD i []) (killS.getD i []) (outS.getD i []))
      syms

/-- Scenario B block: move x, ctor(); destructor(x); return. -/
def scenarioB : List Stmt :=
  [Stmt.move 0 RHS.callCtor, Stmt.dtorCall 0 [], Stmt.ret none]

/-- Scenario E block: move x, ctor(); destructor(x); move x, ctor(); return. -/
def scenarioE : List Stmt :=
  [Stmt.move 0 RHS.callCtor, Stmt.dtorCall 0 [],
   Stmt.move 0 RHS.callCtor, Stmt.ret none]

theorem upd_same {α : Type} (f : Nat → α) (k : Nat) (v : α) : upd f k v k = v := by
  simp [upd]

theorem upd_ne {α : Type} (f : Nat → α) (k : Nat) (v : α) (n : Nat) (h : n ≠ k) :
    upd f k v n = f n := by
  simp [upd, h]

theorem upd_self {α : Type} (f : Nat → α) (k : Nat) : upd f k (f k) = f := by
  funext n
  by_cases h : n = k
  · subst h; simp [upd]
  · simp [upd, h]

theorem upd_upd_same {α : Type} (f : Nat → α) (k : Nat) (a b : α) :
    upd (upd f k a) k b = upd f k b := by
  funext n
  by_cases h : n = k
  · subst h; simp [upd]
  · simp [upd, h]

theorem bvSet_length (v : List Bool) (i : Nat) : (bvSet v i).length = v.length := by
  simp [bvSet]

theorem bvGet_bvSet_self (v : List Bool) (i : Nat) (h : i < v.length) :
    bvGet (bvSet v i) i = true := by
  induction v generalizing i with
  | nil => simp at h
  | cons a t ih =>
      cases i with
      | zero => simp [bvGet, bvSet]
      | succ j =>
          have hj : j < t.length := by simpa using h
          simpa [bvGet, bvSet] using ih j hj

theorem bvGet_bvSet_ne (v : List Bool) (i j : Nat) (h : j ≠ i) :
    bvGet (bvSet v i) j = bvGet v j := by
  induction v generalizing i j with
  | nil => simp [bvGet, bvSet]
  | cons a t ih =>
      cases i with
      | zero =>
          cases j with
          | zero => exact absurd rfl h
          | succ k => simp [bvGet, bvSet]
      | succ i2 =>
          cases j with
          | zero => simp [bvGet, bvSet]
          | succ k =>
              have hk : k ≠ i2 := by omega
              simpa [bvGet, bvSet] using ih i2 k hk

theorem bvSet_of_le (v : List Bool) (i : Nat) (h : v.length ≤ i) : bvSet v i = v := by
  induction v generalizing i with
  | nil => simp [bvSet]
  | cons a t ih =>
      cases i with
      | zero => simp at h
      | succ j =>
          have hj : t.length ≤ j := by simpa using h
          have ht := ih j hj
          simp only [bvSet] at ht
          simp [bvSet, ht]

theorem bvGet_bvSet_mono (v : List Bool) (i j : Nat) (h : bvGet v j = true) :
    bvGet (bvSet v i) j = true := by
  by_cases hij : j = i
  · subst hij
    by_cases hlt : j < v.length
    · exact bvGet_bvSet_self v j hlt
    · rw [bvSet_of_le v j (by omega)]; exact h
  · rw [bvGet_bvSet_ne v i j hij]; exact h

/- Behaviour of the mergeAliases copy loop.  When the two list objects are
   distinct, the loop copies the alias list onto the end of the orig list and
   terminates.  When orig and alias share one list object (which is exactly
   the case when the two symbols are already in the same clique), each
   push_back also grows aliasList, the loop condition i < aliasList->size()
   never becomes false, and the loop never terminates. -/

theorem mergeLoop_self_none (aid : Nat) :
    ∀ (fuel i : Nat) (store : Nat → List Nat), i < (store aid).length →
      mergeLoop aid aid fuel i store = none := by
  intro fuel
  induction fuel with
  | zero =>
      intro i store h
      simp [mergeLoop, h]
  | succ fuel ih =>
      intro i store h
      have hlen : ((upd store aid (store aid ++ [(store aid).getD i 0])) aid).length
          = (store aid).length + 1 := by
        rw [upd_same]; simp
      simp only [mergeLoop, if_pos h]
      exact ih (i + 1) _ (by rw [hlen]; omega)

theorem mergeLoop_distinct (oid aid : Nat) (hne : oid ≠ aid) :
    ∀ (fuel i : Nat) (store : Nat → List Nat), (store aid).length ≤ i + fuel →
      mergeLoop oid aid fuel i store
        = some (upd store oid (store oid ++ (store aid).drop i)) := by
  intro fuel
  induction fuel with
  | zero =>
      intro i store h
      have h2 : ¬ i < (store aid).length := by omega
      have hdrop : (store aid).drop i = [] := List.drop_eq_nil_of_le (by omega)
      simp [mergeLoop, h2, hdrop, upd_self]
  | succ fuel ih =>
      intro i store h
      by_cases hi : i < (store aid).length
      · simp only [mergeLoop, if_pos hi]
        have haid : (upd store oid (store oid ++ [(store aid).getD i 0])) aid = store aid :=
          upd_ne _ _ _ _ (Ne.symm hne)
        have hlen : ((upd store oid (store oid ++ [(store aid).getD i 0])) aid).length
            ≤ (i + 1) + fuel := by rw [haid]; omega
        rw [ih (i + 1) _ hlen]
        have hoid : (upd store oid (store oid ++ [(store aid).getD i 0])) oid
            = store oid ++ [(store aid).getD i 0] := upd_same _ _ _
        rw [haid, hoid, upd_upd_same]
        have hcons : (store aid).getD i 0 :: (store aid).drop (i + 1) = (store aid).drop i := by
          rw [List.getD_eq_getElem _ _ hi]
          exact (List.drop_eq_getElem_cons hi).symm
        rw [List.append_assoc, List.singleton_append, hcons]
      · have hdrop : (store aid).drop i = [] := List.drop_eq_nil_of_le (by omega)
        simp [mergeLoop, hi, hdrop, upd_self]

/-- A merge of two symbols already sharing one list object never
terminates; the loop keeps appending the list to itself. -/
theorem mergeAliasesF_self_none (a : Nat) (fuel : Nat) (st : ScanState)
    (h : 0 < (st.store (st.amap a)).length) :
    mergeAliasesF a a fuel st = none := by
  simp only [mergeAliasesF]
  rw [mergeLoop_self_none (st.amap a) fuel 0 st.store (by omega)]

/-- More generally, merging two symbols whose map entries hold the same
(non-empty) list object never terminates, whether or not the symbols are
equal: origList and aliasList are one object, so the loop grows the list it
measures. -/
theorem mergeAliasesF_same_id (orig alias2 : Nat) (fuel : Nat) (st : ScanState)
    (heq : st.amap orig = st.amap alias2)
    (hpos : 0 < (st.store (st.amap alias2)).length) :
    mergeAliasesF orig alias2 fuel st = none := by
  simp only [mergeAliasesF, heq]
  rw [mergeLoop_self_none (st.amap alias2) fuel 0 st.store (by omega)]

/- Behaviour of the kill loop of processDestructor. -/

theorem killList_none (mem : List Nat) (k : List Bool)
    (h : ∃ s ∈ mem, bvGet k s = true) : killList mem k = none := by
  induction mem generalizing k with
  | nil => simp at h
  | cons m rest ih =>
      by_cases hm : bvGet k m = true
      · simp [killList, hm]
      · rcases h with ⟨s, hs, hget⟩
        rcases List.mem_cons.mp hs with hs | hs
        · exact absurd (hs ▸ hget) hm
        · have hmb : bvGet k m = false := by
            cases hb : bvGet k m
            · rfl
            · exact absurd hb hm
          simp only [killList, hmb, Bool.false_eq_true, if_false]
          exact ih (bvSet k m) ⟨s, hs, bvGet_bvSet_mono k m s hget⟩

theorem killList_some (mem : List Nat) (k : List Bool)
    (hclear : ∀ s ∈ mem, bvGet k s = false) (hnd : mem.Nodup)
    (hbound : ∀ s ∈ mem, s < k.length) :
    ∃ k2, killList mem k = some k2 ∧ k2.length = k.length ∧
      ∀ i, bvGet k2 i = (bvGet k i || decide (i ∈ mem)) := by
  induction mem generalizing k with
  | nil => exact ⟨k, rfl, rfl, by simp⟩
  | cons m rest ih =>
      have hm : bvGet k m = false := hclear m (List.mem_cons_self m rest)
      have hmlt : m < k.length := hbound m (List.mem_cons_self m rest)
      obtain ⟨hnotm, hnd2⟩ := List.nodup_cons.mp hnd
      have hclear2 : ∀ s ∈ rest, bvGet (bvSet k m) s = false := by
        intro s hs
        have hsm : s ≠ m := fun he => hnotm (he ▸ hs)
        rw [bvGet_bvSet_ne k m s hsm]
        exact hclear s (List.mem_cons_of_mem m hs)
      have hbound2 : ∀ s ∈ rest, s < (bvSet k m).length := by
        intro s hs
        rw [bvSet_length]
        exact hbound s (List.mem_cons_of_mem m hs)
      obtain ⟨k2, hrun, hlen, hform⟩ := ih (bvSet k m) hclear2 hnd2 hbound2
      refine ⟨k2, ?_, by rw [hlen, bvSet_length], ?_⟩
      · simp [killList, hm, hrun]
      · intro i
        rw [hform i]
        by_cases him : i = m
        · subst him
          rw [bvGet_bvSet_self k i hmlt]
          simp [hm]
        · rw [bvGet_bvSet_ne k m i him]
          simp [him]

theorem spliceIdx_jump (tk : List Bool) (syms : List Nat) :
    ∀ (js : List Nat) (bef aft : List Stmt),
      spliceIdx true tk syms js (bef, aft) = (bef ++ callsOf tk syms js, aft) := by
  intro js
  induction js with
  | nil => intro bef aft; simp [spliceIdx, callsOf]
  | cons j js ih =>
      intro bef aft
      by_cases hb : bvGet tk j
      · simp only [spliceIdx, hb, if_true, ih]
        simp [callsOf, hb]
      · simp only [spliceIdx, hb]
        simp only [Bool.false_eq_true, if_false, ih]
        simp [callsOf, hb]

theorem spliceIdx_nojump (tk : List Bool) (syms : List Nat) :
    ∀ (js : List Nat) (bef aft : List Stmt),
      spliceIdx false tk syms js (bef, aft)
        = (bef, (callsOf tk syms js).reverse ++ aft) := by
  intro js
  induction js with
  | nil => intro bef aft; simp [spliceIdx, callsOf]
  | cons j js ih =>
      intro bef aft
      by_cases hb : bvGet tk j
      · simp only [spliceIdx, hb, if_true, Bool.false_eq_true, if_false, ih]
        simp [callsOf, hb]
      · simp only [spliceIdx, hb]
        simp only [Bool.false_eq_true, if_false, ih]
        simp [callsOf, hb]

theorem dropLast_append_getLastD {α : Type} (l : List α) (h : l ≠ []) :
    ∀ d, l.dropLast ++ [l.getLastD d] = l := by
  induction l with
  | nil => cases h rfl
  | cons a t ih =>
      intro d
      cases ht : t with
      | nil => simp
      | cons b t2 =>
          subst ht
          have h2 : (b :: t2) ≠ [] := by simp
          simp only [List.dropLast_cons₂, List.getLastD_cons, List.cons_append]
          have h3 := ih h2 b
          rw [List.getLastD_cons] at h3
          rw [h3]

theorem insertBB_concat (pre : List Stmt) (last : Stmt) (tk : List Bool)
    (syms : List Nat) :
    insertAutoDestroyBB (pre ++ [last]) tk syms
      = if isJump last then pre ++ idxCalls tk syms ++ [last]
        else pre ++ [last] ++ (idxCalls tk syms).reverse := by
  have hne : (pre ++ [last]).length ≠ 0 := by simp
  have hlast : (pre ++ [last]).getLastD Stmt.otherStmt = last :=
    List.getLastD_concat _ _ _
  have hdrop : (pre ++ [last]).dropLast = pre := List.dropLast_concat
  simp only [insertAutoDestroyBB, hne, if_false, hlast, hdrop]
  cases hj : isJump last
  · simp only [spliceCalls, spliceIdx_nojump, if_false, Bool.false_eq_true]
    simp [idxCalls]
  · simp only [spliceCalls, spliceIdx_jump, if_true]
    simp [idxCalls]

theorem map_getD_range {α : Type} (l : List α) (d : α) :
    (List.range l.length).map (fun j => l.getD j d) = l := by
  induction l with
  | nil => simp
  | cons a t ih =>
      rw [List.length_cons, List.range_succ_eq_map]
      simp only [List.map_cons, List.map_map]
      have hc : ((fun j => (a :: t).getD j d) ∘ Nat.succ) = fun j => t.getD j d := rfl
      rw [hc, ih]
      rfl

theorem filteredIdx_cons (b : Bool) (bs : List Bool) :
    filteredIdx (b :: bs)
      = (if b then [0] else []) ++ (filteredIdx bs).map Nat.succ := by
  simp only [filteredIdx, List.length_cons, List.range_succ_eq_map]
  rw [List.filter_cons, List.filter_map]
  have hc : ((fun j => bvGet (b :: bs) j) ∘ Nat.succ) = fun j => bvGet bs j := rfl
  have h0 : bvGet (b :: bs) 0 = b := rfl
  rw [hc, h0]
  cases b <;> simp

theorem filteredIdx_length (tk : List Bool) : (filteredIdx tk).length = popcount tk := by
  induction tk with
  | nil => rfl
  | cons b bs ih =>
      rw [filteredIdx_cons]
      simp only [List.length_append, List.length_map, ih, popcount, List.count_cons]
      cases b
      · simp [popcount]
      · simp [popcount]
        omega

theorem mem_filteredIdx (tk : List Bool) (j : Nat) :
    j ∈ filteredIdx tk ↔ j < tk.length ∧ bvGet tk j = true := by
  simp [filteredIdx, List.mem_filter, List.mem_range]

theorem filteredIdx_nodup (tk : List Bool) : (filteredIdx tk).Nodup :=
  List.Nodup.filter _ (List.nodup_range _)

theorem filteredIdx_sorted (tk : List Bool) :
    List.Pairwise (fun a b => a < b) (filteredIdx tk) :=
  List.Pairwise.filter _ (List.pairwise_lt_range _)

theorem count_map_stmt (f : Nat → Stmt) (x : Stmt) :
    ∀ js : List Nat, List.count x (js.map f) = js.countP (fun j => f j == x) := by
  intro js
  induction js with
  | nil => rfl
  | cons j js ih =>
      simp only [List.map_cons, List.count_cons, List.countP_cons, ih]

theorem countP_eq_count_of_iff (p : Nat → Bool) (j : Nat) :
    ∀ js : List Nat, (∀ j2 ∈ js, (p j2 = true ↔ j2 = j)) →
      js.countP p = js.count j := by
  intro js
  induction js with
  | nil => intro _; rfl
  | cons a js ih =>
      intro h
      have ha := h a (List.mem_cons_self a js)
      have ht := fun j2 hj2 => h j2 (List.mem_cons_of_mem a hj2)
      rw [List.countP_cons, List.count_cons, ih ht]
      by_cases hp : p a = true
      · have haj : a = j := ha.mp hp
        subst haj
        simp [hp]
      · have hne : ¬ a = j := fun he => hp (ha.mpr he)
        have hab : (a == j) = false := by simp [hne]
        simp [hp, hab]

theorem getD_inj_of_nodup (syms : List Nat) (hnd : syms.Nodup) (i j : Nat)
    (hi : i < syms.length) (hj : j < syms.length)
    (h : syms.getD i 0 = syms.getD j 0) : i = j := by
  rw [List.getD_eq_getElem _ _ hi, List.getD_eq_getElem _ _ hj] at h
  exact (List.Nodup.getElem_inj_iff hnd).mp h

theorem need_out_bool :
    ∀ x y z : Bool, (((x || y) && !z) && !((x && !z) || y)) = false := by decide

theorem need_of_out_all_false (inb kill gen : List Bool) :
    ∀ x ∈ needBV inb gen kill (outBV inb kill gen), x = false := by
  induction inb generalizing kill gen with
  | nil =>
      intro x hx
      simp [needBV, outBV, bvUnion, bvMinus] at hx
  | cons a inb2 ih =>
      intro x hx
      cases kill with
      | nil => simp [needBV, outBV, bvUnion, bvMinus] at hx
      | cons z kill2 =>
          cases gen with
          | nil => simp [needBV, outBV, bvUnion, bvMinus] at hx
          | cons y gen2 =>
              simp only [needBV, outBV, bvUnion, bvMinus, List.zipWith_cons_cons]
                at hx
              rcases List.mem_cons.mp hx with hx | hx
              · rw [hx]
                exact need_out_bool a y z
              · exact ih kill2 gen2 x hx

theorem bvGet_eq_false_of_all (v : List Bool) (h : ∀ x ∈ v, x = false) (j : Nat) :
    bvGet v j = false := by
  induction v generalizing j with
  | nil => rfl
  | cons a t ih =>
      cases j with
      | zero => exact h a (List.mem_cons_self a t)
      | succ j2 => exact ih (fun x hx => h x (List.mem_cons_of_mem a hx)) j2

theorem idxCalls_nil_of_nobits (tk : List Bool) (syms : List Nat)
    (h : ∀ j, bvGet tk j = false) : idxCalls tk syms = [] := by
  simp only [idxCalls, callsOf]
  have hf : (List.range tk.length).filter (fun j => bvGet tk j) = [] := by
    rw [List.filter_eq_nil_iff]
    intro a _
    simp [h a]
  rw [hf]
  rfl

theorem insertBB_nobits (block : List Stmt) (tk : List Bool) (syms : List Nat)
    (h : ∀ j, bvGet tk j = false) :
    insertAutoDestroyBB block tk syms = block := by
  rcases List.eq_nil_or_concat block with hb | ⟨pre, last, hb⟩
  · subst hb; rfl
  · subst hb
    rw [List.concat_eq_append, insertBB_concat, idxCalls_nil_of_nobits tk syms h]
    cases isJump last <;> simp

theorem passInsert_noop (blocks : List (List Stmt))
    (inS genS killS outS : List (List Bool)) (syms : List Nat)
    (hout : ∀ i, i < blocks.length →
      outS.getD i [] = outBV (inS.getD i []) (killS.getD i []) (genS.getD i [])) :
    passInsert blocks inS genS killS outS syms = blocks := by
  unfold passInsert
  have hcong : ∀ i ∈ List.range blocks.length,
      insertAutoDestroyBB (blocks.getD i [])
        (needBV (inS.getD i []) (genS.getD i []) (killS.getD i []) (outS.getD i []))
        syms
        = blocks.getD i [] := by
    intro i hi
    have hilt : i < blocks.length := List.mem_range.mp hi
    rw [hout i hilt]
    apply insertBB_nobits
    intro j
    exact bvGet_eq_false_of_all _ (need_of_out_all_false _ _ _) j
  rw [List.map_congr_left hcong]
  exact map_getD_range blocks []

theorem idxCalls_eq (tk : List Bool) (syms : List Nat) :
    idxCalls tk syms
      = (filteredIdx tk).map (fun j => Stmt.autoDestroy (syms.getD j 0)) := rfl

theorem idxCalls_length (tk : List Bool) (syms : List Nat) :
    (idxCalls tk syms).length = popcount tk := by
  rw [idxCalls_eq, List.length_map, filteredIdx_length]

theorem count_idxCalls_bit (tk : List Bool) (syms : List Nat) (j : Nat)
    (hj : j < tk.length) (hlen : tk.length ≤ syms.length) (hnd : syms.Nodup) :
    List.count (Stmt.autoDestroy (syms.getD j 0)) (idxCalls tk syms)
      = if bvGet tk j then 1 else 0 := by
  have hiff : ∀ j2 ∈ filteredIdx tk,
      ((Stmt.autoDestroy (syms.getD j2 0) == Stmt.autoDestroy (syms.getD j 0))
        = true ↔ j2 = j) := by
    intro j2 hj2
    rw [beq_iff_eq]
    constructor
    · intro he
      have heq : syms.getD j2 0 = syms.getD j 0 := by injection he
      exact getD_inj_of_nodup syms hnd j2 j
        (lt_of_lt_of_le ((mem_filteredIdx tk j2).mp hj2).1 hlen)
        (lt_of_lt_of_le hj hlen) heq
    · intro he; rw [he]
  have hmemiff : j ∈ filteredIdx tk ↔ bvGet tk j = true := by
    rw [mem_filteredIdx]
    exact ⟨fun h => h.2, fun h => ⟨hj, h⟩⟩
  rw [idxCalls_eq, count_map_stmt, countP_eq_count_of_iff _ j _ hiff,
      List.count_eq_of_nodup (filteredIdx_nodup tk)]
  by_cases hb : bvGet tk j
  · rw [if_pos (hmemiff.mpr hb), if_pos hb]
  · rw [if_neg (fun hm => hb (hmemiff.mp hm)), if_neg hb]

theorem count_idxCalls_zero (tk : List Bool) (syms : List Nat) (s : Nat)
    (h : ∀ j, j < tk.length → bvGet tk j = true → syms.getD j 0 ≠ s) :
    List.count (Stmt.autoDestroy s) (idxCalls tk syms) = 0 := by
  rw [idxCalls_eq, List.count_eq_zero]
  intro hmem
  rw [List.mem_map] at hmem
  obtain ⟨j2, hj2, he⟩ := hmem
  obtain ⟨hlt, hbit⟩ := (mem_filteredIdx tk j2).mp hj2
  have hs : syms.getD j2 0 = s := by injection he
  exact h j2 hlt hbit hs

theorem insertBB_count (pre : List Stmt) (last : Stmt) (tk : List Bool)
    (syms : List Nat) (x : Stmt) :
    List.count x (insertAutoDestroyBB (pre ++ [last]) tk syms)
      = List.count x (pre ++ [last]) + List.count x (idxCalls tk syms) := by
  rw [insertBB_concat]
  by_cases hj : isJump last = true
  · rw [if_pos hj]
    simp [List.count_append]
    omega
  · rw [if_neg hj]
    simp [List.count_append, List.count_reverse, List.count_cons]
    omega

theorem insertBB_length (pre : List Stmt) (last : Stmt) (tk : List Bool)
    (syms : List Nat) :
    (insertAutoDestroyBB (pre ++ [last]) tk syms).length
      = (pre ++ [last]).length + popcount tk := by
  rw [insertBB_concat]
  by_cases hj : isJump last = true
  · rw [if_pos hj]
    simp [idxCalls_length]
    omega
  · rw [if_neg hj]
    simp [idxCalls_length]
    omega

/-- C1: insertAutoDestroy (lines 501-543) inserts into a basic block with a
non-empty expression list exactly popcount(IN + GEN - KILL - OUT) auto-destroy
calls: exactly one call targeting the symbol of each set bit of that need
vector, and none targeting any other symbol; a block with an empty
expression list receives no insertion even when the need vector is
non-empty. -/
theorem insertAutoDestroy_need_popcount (inb gen kill out : List Bool)
    (pre : List Stmt) (last : Stmt) (syms : List Nat) (tk : List Bool)
    (_htk : tk = needBV inb gen kill out)
    (hlen : tk.length ≤ syms.length) (hnd : syms.Nodup) :
    (insertAutoDestroyBB (pre ++ [last]) tk syms).length
        = (pre ++ [last]).length + popcount tk
    ∧ (∀ j, j < tk.length →
        List.count (Stmt.autoDestroy (syms.getD j 0))
            (insertAutoDestroyBB (pre ++ [last]) tk syms)
          = List.count (Stmt.autoDestroy (syms.getD j 0)) (pre ++ [last])
            + (if bvGet tk j then 1 else 0))
    ∧ (∀ s, (∀ j, j < tk.length → bvGet tk j = true → syms.getD j 0 ≠ s) →
        List.count (Stmt.autoDestroy s)
            (insertAutoDestroyBB (pre ++ [last]) tk syms)
          = List.count (Stmt.autoDestroy s) (pre ++ [last]))
    ∧ insertAutoDestroyBB [] tk syms = [] := by
  refine ⟨insertBB_length pre last tk syms, ?_, ?_, rfl⟩
  · intro j hj
    rw [insertBB_count, count_idxCalls_bit tk syms j hj hlen hnd]
  · intro s hs
    rw [insertBB_count, count_idxCalls_zero tk syms s hs]
    omega

/-- Witness for C1 at a concrete two-symbol block whose need vector has both
bits set. -/
theorem insertAutoDestroy_need_popcount_witness :
    (insertAutoDestroyBB ([] ++ [Stmt.ret none])
        (needBV [false, false] [true, true] [false, false] [false, false])
        [0, 1]).length
        = (([] : List Stmt) ++ [Stmt.ret none]).length
          + popcount (needBV [false, false] [true, true] [false, false] [false, false])
    ∧ (∀ j, j < (needBV [false, false] [true, true] [false, false] [false, false]).length →
        List.count (Stmt.autoDestroy ([0, 1].getD j 0))
            (insertAutoDestroyBB ([] ++ [Stmt.ret none])
              (needBV [false, false] [true, true] [false, false] [false, false]) [0, 1])
          = List.count (Stmt.autoDestroy ([0, 1].getD j 0)) ([] ++ [Stmt.ret none])
            + (if bvGet (needBV [false, false] [true, true] [false, false] [false, false]) j
                then 1 else 0))
    ∧ (∀ s, (∀ j, j < (needBV [false, false] [true, true] [false, false] [false, false]).length →
          bvGet (needBV [false, false] [true, true] [false, false] [false, false]) j = true →
          [0, 1].getD j 0 ≠ s) →
        List.count (Stmt.autoDestroy s)
            (insertAutoDestroyBB ([] ++ [Stmt.ret none])
              (needBV [false, false] [true, true] [false, false] [false, false]) [0, 1])
          = List.count (Stmt.autoDestroy s) ([] ++ [Stmt.ret none]))
    ∧ insertAutoDestroyBB []
        (needBV [false, false] [true, true] [false, false] [false, false]) [0, 1] = [] :=
  insertAutoDestroy_need_popcount [false, false] [true, true] [false, false] [false, false]
    [] (Stmt.ret none) [0, 1] _ rfl (by decide) (by decide)

/-- C3: every auto-destroy call a non-empty block receives is spliced on the
before-side of the block's last statement exactly when that statement is a
jump (isJump, lines 484-496: a goto or a return primitive), and on the
after-side of it otherwise. -/
theorem placement_before_iff_jump (pre : List Stmt) (last : Stmt)
    (tk : List Bool) (syms : List Nat) :
    (isJump last = true →
      insertAutoDestroyBB (pre ++ [last]) tk syms
        = pre ++ idxCalls tk syms ++ [last])
    ∧ (isJump last = false →
      insertAutoDestroyBB (pre ++ [last]) tk syms
        = pre ++ [last] ++ (idxCalls tk syms).reverse) := by
  constructor
  · intro hj
    rw [insertBB_concat, if_pos hj]
  · intro hj
    rw [insertBB_concat, if_neg (by simp [hj])]

/-- Witness for C3: a return-terminated block receives its call before the
return, and a block ending in a plain statement receives it after. -/
theorem placement_before_iff_jump_witness :
    insertAutoDestroyBB ([Stmt.otherStmt] ++ [Stmt.ret none]) [true] [7]
      = [Stmt.otherStmt] ++ idxCalls [true] [7] ++ [Stmt.ret none]
    ∧ insertAutoDestroyBB ([] ++ [Stmt.otherStmt]) [true] [7]
      = [] ++ [Stmt.otherStmt] ++ (idxCalls [true] [7]).reverse :=
  ⟨(placement_before_iff_jump [Stmt.otherStmt] (Stmt.ret none) [true] [7]).1 rfl,
   (placement_before_iff_jump [] Stmt.otherStmt [true] [7]).2 rfl⟩

/-- C8 (amended): the insertion loop visits bit positions in ascending
order; the inserted calls appear in the block in ascending symbol-index
order when the last statement is a jump (insertBefore case), but in
descending symbol-index order when it is not (repeated insertAfter at the
same last statement reverses the order). -/
theorem insert_order_by_index (pre : List Stmt) (last : Stmt)
    (tk : List Bool) (syms : List Nat) :
    List.Pairwise (fun a b => a < b) (filteredIdx tk)
    ∧ (isJump last = true →
        insertAutoDestroyBB (pre ++ [last]) tk syms
          = pre ++ (filteredIdx tk).map (fun j => Stmt.autoDestroy (syms.getD j 0))
              ++ [last])
    ∧ (isJump last = false →
        insertAutoDestroyBB (pre ++ [last]) tk syms
          = pre ++ [last]
            ++ ((filteredIdx tk).map (fun j => Stmt.autoDestroy (syms.getD j 0))).reverse) := by
  refine ⟨filteredIdx_sorted tk, ?_, ?_⟩
  · intro hj
    rw [insertBB_concat, if_pos hj, idxCalls_eq]
  · intro hj
    rw [insertBB_concat, if_neg (by simp [hj]), idxCalls_eq]

/-- Witness for C8's amended theorem at a concrete non-jump block. -/
theorem insert_order_by_index_witness :
    List.Pairwise (fun a b => a < b) (filteredIdx [true, true])
    ∧ insertAutoDestroyBB ([] ++ [Stmt.otherStmt]) [true, true] [4, 9]
      = [] ++ [Stmt.otherStmt]
        ++ ((filteredIdx [true, true]).map
              (fun j => Stmt.autoDestroy ([4, 9].getD j 0))).reverse :=
  ⟨(insert_order_by_index [] Stmt.otherStmt [true, true] [4, 9]).1,
   (insert_order_by_index [] Stmt.otherStmt [true, true] [4, 9]).2.2 rfl⟩

/-- C8 counterexample: with bits 0 and 1 of the need vector set and a
non-jump last statement, the two calls appear in descending symbol-index
order, not ascending. -/
theorem insert_order_counterexample :
    insertAutoDestroyBB [Stmt.otherStmt] [true, true] [4, 9]
      = [Stmt.otherStmt, Stmt.autoDestroy 9, Stmt.autoDestroy 4]
    ∧ insertAutoDestroyBB [Stmt.otherStmt] [true, true] [4, 9]
      ≠ [Stmt.otherStmt, Stmt.autoDestroy 4, Stmt.autoDestroy 9] :=
  ⟨by decide, by decide⟩

/-- C2: evaluation of mergeAliases at a clique of size two standing on the
alias side.  Three symbols; move c, b merges b and c (their clique is the
list under id 1), then move b, a merges that clique into a's list: the
code frees the shared list of b and c and repoints only b, so c still maps
to the freed id 1 whose stale contents [1, 2] differ from the merged
clique [0, 1, 2] that a and b observe. -/
theorem merge_breaks_shared_clique :
    ((scanBlock false 4 (initState 3)
        [Stmt.move 2 (RHS.sym 1), Stmt.move 1 (RHS.sym 0)]).map
      (fun st => (st.amap 2, st.alive (st.amap 2), st.store (st.amap 2),
                  st.store (st.amap 0), st.store (st.amap 1))))
      = some (1, false, [1, 2], [0, 1, 2], [0, 1, 2])
    ∧ ([1, 2] : List Nat) ≠ [0, 1, 2] :=
  ⟨by decide, by decide⟩

/-- C7: a merge of two symbols already in one clique passes a single shared
list object as both orig and alias, so the copy loop re-reads the growing
list and never exits, whatever the fuel; the move x, x statement reaches
exactly this call from the initial state. -/
theorem merge_same_clique_diverges :
    (∀ fuel, mergeAliasesF 0 0 fuel (initState 1) = none)
    ∧ (∀ fuel, processStmt false fuel (initState 1) (Stmt.move 0 (RHS.sym 0)) = none) := by
  have h1 : ∀ fuel, mergeAliasesF 0 0 fuel (initState 1) = none := by
    intro fuel
    apply mergeAliasesF_self_none
    simp [initState]
  refine ⟨h1, fun fuel => ?_⟩
  have hred : processStmt false fuel (initState 1) (Stmt.move 0 (RHS.sym 0))
      = mergeAliasesF 0 0 fuel (initState 1) := rfl
  rw [hred]
  exact h1 fuel

/-- C4: processDestructor (lines 368-420).  For a tracked symbol r, a call
resolved to a FLAG_DESTRUCTOR function with r as first argument and a
return primitive taking r both set the KILL bit of every member of r's
alias list, asserting for each member that its bit was not already set in
this block (the scan aborts when one is); and a tracked SymExpr in a
non-first argument position of a destructor call fails the first-argument
assertion and aborts. -/
theorem dtor_kills_clique (warn : Bool) (fuel : Nat) (st : ScanState) (r : Nat)
    (hr : r < st.gen.length)
    (hnd : (st.store (st.amap r)).Nodup)
    (hbound : ∀ s ∈ st.store (st.amap r), s < st.kill.length) :
    ((∀ s ∈ st.store (st.amap r), bvGet st.kill s = false) →
      ∃ st1, processStmt warn fuel st (Stmt.dtorCall r []) = some st1
        ∧ processStmt warn fuel st (Stmt.ret (some r)) = some st1
        ∧ st1.gen = st.gen
        ∧ st1.warnings = st.warnings
        ∧ st1.amap = st.amap
        ∧ st1.store = st.store
        ∧ st1.kill.length = st.kill.length
        ∧ (∀ i, bvGet st1.kill i
              = (bvGet st.kill i || decide (i ∈ st.store (st.amap r)))))
    ∧ ((∃ s ∈ st.store (st.amap r), bvGet st.kill s = true) →
        processStmt warn fuel st (Stmt.dtorCall r []) = none
        ∧ processStmt warn fuel st (Stmt.ret (some r)) = none)
    ∧ (∀ b, b < st.gen.length →
        processStmt warn fuel st (Stmt.dtorCall r [b]) = none) := by
  refine ⟨?_, ?_, ?_⟩
  · intro hclear
    obtain ⟨k2, hrun, hlen2, hform⟩ :=
      killList_some (st.store (st.amap r)) st.kill hclear hnd hbound
    have hkm : killMembers st r = some { st with kill := k2 } := by
      simp only [killMembers, hrun]
    refine ⟨{ st with kill := k2 }, ?_, ?_, rfl, rfl, rfl, rfl, hlen2, hform⟩
    · simp only [processStmt, hkm, if_pos hr, List.any_nil, Bool.false_eq_true,
        if_false]
    · simp only [processStmt, hkm, if_pos hr]
  · intro hset
    have hrun : killList (st.store (st.amap r)) st.kill = none :=
      killList_none _ _ hset
    have hkm : killMembers st r = none := by simp only [killMembers, hrun]
    constructor
    · simp only [processStmt, hkm, if_pos hr]
    · simp only [processStmt, hkm, if_pos hr]
  · intro b hb
    have hany : ([b].any (fun x => decide (x < st.gen.length))) = true := by
      simp [hb]
    cases hkm : killMembers st r with
    | none => simp only [processStmt, hkm, if_pos hr]
    | some st1 => simp only [processStmt, hkm, if_pos hr, hany, if_true]

/-- Witness for C4 at the initial one-clique state. -/
theorem dtor_kills_clique_witness :
    ∃ st1, processStmt false 0 (initState 2) (Stmt.dtorCall 0 []) = some st1
      ∧ processStmt false 0 (initState 2) (Stmt.ret (some 0)) = some st1
      ∧ st1.gen = (initState 2).gen
      ∧ st1.warnings = (initState 2).warnings
      ∧ st1.amap = (initState 2).amap
      ∧ st1.store = (initState 2).store
      ∧ st1.kill.length = (initState 2).kill.length
      ∧ (∀ i, bvGet st1.kill i
            = (bvGet (initState 2).kill i
               || decide (i ∈ (initState 2).store ((initState 2).amap 0)))) :=
  (dtor_kills_clique false 0 (initState 2) 0 (by decide) (by decide)
    (by decide)).1 (by decide)

/-- C9 (amended): processMove (lines 327-365) on move l, r with both
symbols tracked, GEN[l] clear (the asserted precondition of line 349) and
GEN[r] clear.  When the cliques of l and r are distinct list objects, the
scan continues (result some), every GEN bit is left unchanged (in
particular l's stays clear), the cliques of r and l are merged (r's list
receives l's members and l is repointed to it; l's old list is freed), and
exactly one warning anchored at r is appended iff the ownership-warning
flag is on.  But when l and r already hold one shared list object - as
after a previous move l, r - mergeAliases receives that object as both
orig and alias and never terminates, so the analysis does not continue. -/
theorem move_uninit_copy (warn : Bool) (fuel : Nat) (st : ScanState) (l r : Nat)
    (hl : l < st.gen.length) (hr : r < st.gen.length)
    (hgl : bvGet st.gen l = false) (hgr : bvGet st.gen r = false) :
    (st.amap l ≠ st.amap r → (st.store (st.amap l)).length ≤ fuel →
      ∃ st1, processStmt warn fuel st (Stmt.move l (RHS.sym r)) = some st1
        ∧ st1.gen = st.gen
        ∧ st1.kill = st.kill
        ∧ st1.amap l = st.amap r
        ∧ st1.amap r = st.amap r
        ∧ st1.store (st.amap r) = st.store (st.amap r) ++ st.store (st.amap l)
        ∧ st1.alive (st.amap l) = false
        ∧ st1.warnings = st.warnings ++ (if warn then [r] else []))
    ∧ (st.amap l = st.amap r → 0 < (st.store (st.amap l)).length →
        processStmt warn fuel st (Stmt.move l (RHS.sym r)) = none) := by
  set stW := if warn then { st with warnings := st.warnings ++ [r] } else st
    with hstW
  have hWamap : stW.amap = st.amap := by cases warn <;> simp [hstW]
  have hWstore : stW.store = st.store := by cases warn <;> simp [hstW]
  have hWalive : stW.alive = st.alive := by cases warn <;> simp [hstW]
  have hWgen : stW.gen = st.gen := by cases warn <;> simp [hstW]
  have hWkill : stW.kill = st.kill := by cases warn <;> simp [hstW]
  have hWwarn : stW.warnings = st.warnings ++ (if warn then [r] else []) := by
    cases warn <;> simp [hstW]
  have hproc : processStmt warn fuel st (Stmt.move l (RHS.sym r))
      = mergeAliasesF r l fuel stW := by
    simp only [processStmt, if_pos hl, if_pos hr, hgl, hgr, Bool.false_eq_true,
      if_false, hstW]
  constructor
  · intro hids hfuel
    have hrl : r ≠ l := fun he => hids (by rw [he])
    have hloop : mergeLoop (st.amap r) (st.amap l) fuel 0 st.store
        = some (upd st.store (st.amap r)
            (st.store (st.amap r) ++ st.store (st.amap l))) := by
      have h2 := mergeLoop_distinct (st.amap r) (st.amap l) (Ne.symm hids) fuel 0
        st.store (by omega)
      rw [List.drop_zero] at h2
      exact h2
    have hmerge : mergeAliasesF r l fuel stW
        = some { stW with
            store := upd st.store (st.amap r)
              (st.store (st.amap r) ++ st.store (st.amap l))
            alive := upd st.alive (st.amap l) false
            amap := upd st.amap l (st.amap r) } := by
      simp only [mergeAliasesF, hWamap, hWstore, hWalive, hloop]
    refine ⟨{ stW with
        store := upd st.store (st.amap r)
          (st.store (st.amap r) ++ st.store (st.amap l))
        alive := upd st.alive (st.amap l) false
        amap := upd st.amap l (st.amap r) }, ?_, ?_, ?_, ?_, ?_, ?_, ?_, ?_⟩
    · rw [hproc, hmerge]
    · exact hWgen
    · exact hWkill
    · exact upd_same st.amap l (st.amap r)
    · exact upd_ne st.amap l (st.amap r) r hrl
    · exact upd_same st.store (st.amap r) _
    · exact upd_same st.alive (st.amap l) false
    · exact hWwarn
  · intro heq hpos
    rw [hproc]
    refine mergeAliasesF_same_id r l fuel stW ?_ ?_
    · rw [hWamap]; exact heq.symm
    · rw [hWamap, hWstore]; exact hpos

/-- Witness for C9: the distinct-clique branch at the two-symbol initial
state with warnings on, and the shared-clique branch at the reachable
state after a first move y, x. -/
theorem move_uninit_copy_witness :
    (∃ st1, processStmt true 1 (initState 2) (Stmt.move 1 (RHS.sym 0)) = some st1
      ∧ st1.gen = (initState 2).gen
      ∧ st1.kill = (initState 2).kill
      ∧ st1.amap 1 = (initState 2).amap 0
      ∧ st1.amap 0 = (initState 2).amap 0
      ∧ st1.store ((initState 2).amap 0)
          = (initState 2).store ((initState 2).amap 0)
            ++ (initState 2).store ((initState 2).amap 1)
      ∧ st1.alive ((initState 2).amap 1) = false
      ∧ st1.warnings = (initState 2).warnings ++ (if true then [0] else []))
    ∧ processStmt false 5 afterFirstMove (Stmt.move 1 (RHS.sym 0)) = none :=
  ⟨(move_uninit_copy true 1 (initState 2) 1 0 (by decide) (by decide)
      (by decide) (by decide)).1 (by decide) (by decide),
   (move_uninit_copy false 5 afterFirstMove 1 0 (by decide) (by decide)
      (by decide) (by decide)).2 rfl (by decide)⟩

/-- C9 counterexample: the bitwise-move recognizer does not always let the
analysis continue.  One move y, x from the initial two-symbol state (x
never constructed) leaves GEN[y] and GEN[x] clear and fuses the cliques of
x and y into one shared list, so a second move y, x again satisfies the
claim's premises; but mergeAliases then receives the shared list as both
orig and alias and never terminates: the scan of the two-statement block
completes for no fuel bound. -/
theorem move_uninit_copy_counterexample :
    scanBlock false 1 (initState 2) [Stmt.move 1 (RHS.sym 0)]
        = some afterFirstMove
    ∧ afterFirstMove.gen = [false, false]
    ∧ afterFirstMove.amap 1 = afterFirstMove.amap 0
    ∧ (∀ fuel,
        processStmt false fuel afterFirstMove (Stmt.move 1 (RHS.sym 0)) = none)
    ∧ (∀ fuel, scanBlock false fuel (initState 2)
        [Stmt.move 1 (RHS.sym 0), Stmt.move 1 (RHS.sym 0)] = none) := by
  have hsecond : ∀ fuel,
      processStmt false fuel afterFirstMove (Stmt.move 1 (RHS.sym 0)) = none := by
    intro fuel
    have hred : processStmt false fuel afterFirstMove (Stmt.move 1 (RHS.sym 0))
        = mergeAliasesF 0 1 fuel afterFirstMove := rfl
    rw [hred]
    exact mergeAliasesF_same_id 0 1 fuel afterFirstMove rfl (by decide)
  refine ⟨rfl, rfl, rfl, hsecond, ?_⟩
  intro fuel
  cases fuel with
  | zero => rfl
  | succ f =>
      have hloop := mergeLoop_distinct 0 1 (by decide) (f + 1) 0
        (initState 2).store (by simp [initState])
      have hamap0 : (initState 2).amap 0 = 0 := rfl
      have hamap1 : (initState 2).amap 1 = 1 := rfl
      have hfirst : processStmt false (f + 1) (initState 2)
          (Stmt.move 1 (RHS.sym 0)) = some afterFirstMove := by
        have hred : processStmt false (f + 1) (initState 2)
            (Stmt.move 1 (RHS.sym 0))
            = mergeAliasesF 0 1 (f + 1) (initState 2) := rfl
        rw [hred]
        simp only [mergeAliasesF, hamap0, hamap1, hloop]
        rfl
      simp only [scanBlock, hfirst, hsecond (f + 1)]

/-- C5 counterexample: on the scenario E block the analysis does not
complete: the transition scan aborts (none) instead of finishing and
inserting one destructor, because nothing clears the GEN bit when the
destructor is seen, so the construction assertion of line 300 fires on the
second construction. -/
theorem scenarioE_aborts :
    scanBlock false 4 (initState 1) scenarioE = none := rfl

/-- C5 (amended): after the first construction and the explicit
destruction, GEN and KILL are both {x}; the second construction then hits
the asserted precondition GEN[x] = false (line 300) and the analysis
aborts with an internal error, so no auto-destroy call is inserted on this
input. -/
theorem scenarioE_assert_on_reconstruction :
    ((scanBlock false 4 (initState 1)
        [Stmt.move 0 RHS.callCtor, Stmt.dtorCall 0 []]).map
      (fun st => (st.gen, st.kill)))
      = some ([true], [true])
    ∧ ((scanBlock false 4 (initState 1)
        [Stmt.move 0 RHS.callCtor, Stmt.dtorCall 0 []]).bind
      (fun st => processStmt false 4 st (Stmt.move 0 RHS.callCtor)))
      = none
    ∧ scanBlock false 4 (initState 1) scenarioE = none :=
  ⟨by decide, rfl, rfl⟩

/-- C6 counterexample: on the scenario B block the forward-flow OUT of the
single (entry) block is {x}, not the empty set: OUT = (IN - KILL) + GEN
and GEN takes precedence over KILL. -/
theorem scenarioB_out_nonempty :
    ((scanBlock false 4 (initState 1) scenarioB).map
      (fun st => outBV [false] st.kill st.gen))
      = some [true]
    ∧ ([true] : List Bool) ≠ [false] :=
  ⟨by decide, by decide⟩

/-- C6 (amended): scenario B yields GEN = {x}, KILL = {x}, no warnings,
OUT = {x} (by the flow equation, not the empty set), need = {} and no
auto-destroy call inserted: the block is unchanged. -/
theorem scenarioB_amended :
    ((scanBlock false 4 (initState 1) scenarioB).map
      (fun st =>
        (st.gen, st.kill, st.warnings,
         outBV [false] st.kill st.gen,
         needBV [false] st.gen st.kill (outBV [false] st.kill st.gen),
         insertAutoDestroyBB scenarioB
           (needBV [false] st.gen st.kill (outBV [false] st.kill st.gen)) [0])))
      = some ([true], [true], [], [true], [false], scenarioB) := rfl

/-- C10 (amended): whenever every block's OUT satisfies the forward flow
equation OUT = (IN - KILL) + GEN (spec section 4.4, comment at line 115),
the need vector IN + GEN - KILL - OUT of every block is empty, so one run
of the insertion pass inserts nothing and leaves every block unchanged,
and a second run on its output again returns the input unchanged.  The
idempotence is vacuous: even the first run inserts no calls, and symbols
may remain owned at block boundaries. -/
theorem pass_inserts_nothing (blocks : List (List Stmt))
    (inS genS killS outS : List (List Bool)) (syms : List Nat)
    (hout : ∀ i, i < blocks.length →
      outS.getD i [] = outBV (inS.getD i []) (killS.getD i []) (genS.getD i [])) :
    passInsert blocks inS genS killS outS syms = blocks
    ∧ passInsert (passInsert blocks inS genS killS outS syms) inS genS killS outS
        syms = blocks := by
  have h1 := passInsert_noop blocks inS genS killS outS syms hout
  exact ⟨h1, by rw [h1]; exact h1⟩

/-- Witness for C10 at scenario A (a single block constructing x and
returning): IN = {}, GEN = {x}, KILL = {}, OUT = {x} satisfies the flow
equation. -/
theorem pass_inserts_nothing_witness :
    passInsert [[Stmt.move 0 RHS.callCtor, Stmt.ret none]]
        [[false]] [[true]] [[false]] [[true]] [0]
      = [[Stmt.move 0 RHS.callCtor, Stmt.ret none]]
    ∧ passInsert
        (passInsert [[Stmt.move 0 RHS.callCtor, Stmt.ret none]]
          [[false]] [[true]] [[false]] [[true]] [0])
        [[false]] [[true]] [[false]] [[true]] [0]
      = [[Stmt.move 0 RHS.callCtor, Stmt.ret none]] :=
  pass_inserts_nothing _ _ _ _ _ _ (by
    intro i hi
    have h1 : i < 1 := by simpa using hi
    have h0 : i = 0 := by omega
    subst h0
    decide)

/-- C10 counterexample: a run of the pass on scenario A leaves the function
unchanged, yet x is owned at the block's exit boundary (its OUT bit is
set), contradicting that after the first run every tracked symbol is
unowned at every block boundary. -/
theorem pass_leaves_symbol_owned :
    passInsert [[Stmt.move 0 RHS.callCtor, Stmt.ret none]]
        [[false]] [[true]] [[false]] [[true]] [0]
      = [[Stmt.move 0 RHS.callCtor, Stmt.ret none]]
    ∧ outBV [false] [false] [true] = [true]
    ∧ bvGet (outBV [false] [false] [true]) 0 = true :=
  ⟨by decide, by decide, by decide⟩
